import Mathlib

/-!
Shallow embedding of the Spresense dynamic sine wave generator
(`src/main.cpp`).

Modelling conventions:
* `float` values (`freq`, `phase`, the `PI2` and `SAMPLE_RATE` constants,
  the value returned by `String::toFloat`) are modelled over the exact
  rationals `ℚ`; the numeric literals of the source are taken verbatim.
* the C library `sin` is modelled by `Real.sin`; the `(int16_t)` cast is
  modelled by truncation toward zero (`truncToInt`) followed by 16-bit
  two's-complement wraparound (`toInt16`).
* the Arduino `String` accumulator `inputStr` is a `List Char`; the
  interleaved stereo buffer written by `generate_sine` is a list of
  (left, right) pairs, frame `i` standing for slots `2*i` and `2*i+1`.
* one invocation of the Arduino `loop()` function is the state
  transformer `loop_iter` on `SysState`; the `while (1);` halt is the
  absorbing `halted` flag (control never returns from the spin loop, so
  a halted state is a fixed point).
-/

/-- Source constant `const float PI2 = 6.2831853f`, the rational
6.2831853 = 62831853/10000000. -/
def PI2 : ℚ := mkRat 62831853 10000000

/-- Source constant `const float SAMPLE_RATE = 48000.0f`. -/
def SAMPLE_RATE : ℚ := 48000

/-- Source constant `const int AMPLITUDE = 15000`. -/
def AMPLITUDE : ℤ := 15000

/-- Arduino `isDigit(c)`: true exactly on the ASCII digits `'0'..'9'`. -/
def isDigit (c : Char) : Bool := '0' ≤ c && c ≤ '9'

/-- Value of a digit string, most significant digit first (`'0'` has code 48). -/
def digitsVal (cs : List Char) : ℕ := cs.foldl (fun a c => 10 * a + (c.toNat - 48)) 0

/-- Arduino `String::toFloat()` (C `strtod`) on the accumulated buffer.  The
buffer can only contain digits and `'.'` characters, so the sign, whitespace
and exponent forms of `strtod` cannot arise: the parse reads leading digits,
then an optional `'.'` followed by more digits, and stops at the first
character it cannot use; when no digits are read at all the result is the
fallback value `0`. -/
def toFloat (cs : List Char) : ℚ :=
  let ip := cs.takeWhile isDigit
  match cs.dropWhile isDigit with
  | '.' :: r =>
      let fp := r.takeWhile isDigit
      let den : ℕ := Nat.pow 10 fp.length
      mkRat (Int.ofNat (Nat.add (Nat.mul (digitsVal ip) den) (digitsVal fp))) den
  | _ => (digitsVal ip : ℚ)

/-- Outcome of a terminated command line: the `[INFO] Frequency changed` path
(`Applied`) or the `[WARN] Invalid frequency` path (`Rejected`). -/
inductive Outcome where
  | Applied (f : ℚ)
  | Rejected
deriving DecidableEq

/-- The two globals read and written by the serial-input section of `loop()`:
the pending accumulator `inputStr` and the shared frequency `freq`. -/
structure ParseState where
  inputStr : List Char
  freq : ℚ
deriving DecidableEq

/-- One iteration of the `while (Serial.available() > 0)` body of `loop()`
(src/main.cpp lines 139-156) on one character `c`:
terminators attempt a parse of a nonempty buffer and clear it, digits and
`'.'` are appended, everything else is ignored. -/
def feed_char (ps : ParseState) (c : Char) : ParseState × Option Outcome :=
  if c = '\n' ∨ c = '\r' then
    if ps.inputStr.length > 0 then
      let newFreq := toFloat ps.inputStr
      if 20 < newFreq ∧ newFreq < 20000 then
        ({ inputStr := [], freq := newFreq }, some (Outcome.Applied newFreq))
      else
        ({ inputStr := [], freq := ps.freq }, some Outcome.Rejected)
    else (ps, none)
  else if isDigit c ∨ c = '.' then
    ({ ps with inputStr := ps.inputStr ++ [c] }, none)
  else (ps, none)

/-- The whole `while (Serial.available() > 0)` loop: feed the available
characters in order, collecting the outcomes that are produced. -/
def feed_chars : ParseState → List Char → ParseState × List Outcome
  | ps, [] => (ps, [])
  | ps, c :: cs =>
      let r := feed_char ps c
      let rest := feed_chars r.1 cs
      (rest.1, r.2.toList ++ rest.2)

/-- Truncation toward zero, the behaviour of the C cast from a floating value
to an integer type. -/
noncomputable def truncToInt (x : ℝ) : ℤ := if 0 ≤ x then ⌊x⌋ else ⌈x⌉

/-- Two's-complement wraparound of an integer into the `int16_t` range. -/
def toInt16 (v : ℤ) : ℤ := (v + 32768) % 65536 - 32768

/-- The sample value `(int16_t)(sin(phase) * AMPLITUDE)` computed by
`generate_sine` at phase `p`. -/
noncomputable def sineSample (p : ℚ) : ℤ :=
  toInt16 (truncToInt (Real.sin (p : ℝ) * (AMPLITUDE : ℝ)))

/-- The per-sample phase update of `generate_sine`:
`phase += phase_inc; if (phase >= PI2) phase -= PI2;`. -/
def phase_step (inc p : ℚ) : ℚ :=
  if p + inc ≥ PI2 then p + inc - PI2 else p + inc

/-- The phase after `n` iterations of the `generate_sine` loop starting at
phase `p` with increment `inc`. -/
def run_phase (inc : ℚ) : ℚ → ℕ → ℚ
  | p, 0 => p
  | p, n + 1 => run_phase inc (phase_step inc p) n

/-- The body of the `for` loop of `generate_sine`: starting at phase `p`,
produce `n` frames.  Frame `i` of the returned list is the pair written to
buffer slots `2*i` (left) and `2*i+1` (right); the second component is the
final value of the `phase` global. -/
noncomputable def gen_loop (inc : ℚ) : ℚ → ℕ → List (ℤ × ℤ) × ℚ
  | p, 0 => ([], p)
  | p, n + 1 =>
      ((sineSample p, sineSample p) :: (gen_loop inc (phase_step inc p) n).1,
       (gen_loop inc (phase_step inc p) n).2)

/-- Source function `generate_sine` (src/main.cpp lines 72-82): computes
`phase_inc = PI2 * freq / SAMPLE_RATE` once, then runs the per-frame loop on
the global `phase`, returning the interleaved buffer contents and the updated
phase. -/
noncomputable def generate_sine (freq p : ℚ) (frames : ℕ) : List (ℤ × ℤ) × ℚ :=
  gen_loop (PI2 * freq / SAMPLE_RATE) p frames

/-- Severity threshold constant of the external audio SDK; the attention codes
are ordered information < warning < error < fatal, and only the comparison
`error_code > AS_ATTENTION_CODE_WARNING` matters to this program. -/
def AS_ATTENTION_CODE_WARNING : ℕ := 1

/-- The global state touched by `loop()`, `error_callback` and their
callees: the fault flag, the spin-loop halt (control stuck in `while (1);`),
whether `player->stop` was issued, the parser globals, the oscillator phase,
the pending serial bytes, plus two observables: how many `writeFrames`
buffer refills were issued and the command outcomes produced so far. -/
structure SysState where
  err_flag : Bool
  halted : Bool
  player_stopped : Bool
  ps : ParseState
  phase : ℚ
  serial : List Char
  refills : ℕ
  outcomes : List Outcome
deriving DecidableEq

/-- Source function `error_callback` (src/main.cpp lines 46-51): sets the
fault flag when the reported code exceeds the warning severity. -/
def error_callback (code : ℕ) (s : SysState) : SysState :=
  if AS_ATTENTION_CODE_WARNING < code then { s with err_flag := true } else s

/-- One invocation of `loop()` (src/main.cpp lines 136-176).  A halted state
is a fixed point (control never leaves `while (1);`).  Otherwise the loop
refills the playback buffer (`writeFrames`), drains the serial input through
the accumulator, and finally checks the fault flag, halting permanently when
it is set. -/
def loop_iter (s : SysState) : SysState :=
  if s.halted then s
  else
    let s1 : SysState := { s with refills := s.refills + 1 }
    let fed := feed_chars s1.ps s1.serial
    let s2 : SysState :=
      { s1 with ps := fed.1, serial := [], outcomes := s1.outcomes ++ fed.2 }
    if s2.err_flag then { s2 with halted := true, player_stopped := true } else s2

/-- Concrete state used by the C5 counterexample: the fault flag is set, the
halt has not yet been reached, and a complete command line is pending on the
serial input. -/
def faultedRunning : SysState :=
  { err_flag := true, halted := false, player_stopped := false,
    ps := { inputStr := [], freq := 440 }, phase := 0,
    serial := ['4', '0', '0', '\n'], refills := 0, outcomes := [] }

/-- Concrete faulted-and-halted state used by the C5 witness. -/
def faultedHalted : SysState :=
  { err_flag := true, halted := true, player_stopped := true,
    ps := { inputStr := [], freq := 440 }, phase := 0,
    serial := [], refills := 3, outcomes := [] }

theorem feed_char_accept (ps : ParseState) (c : Char)
    (h : isDigit c = true ∨ c = '.') :
    feed_char ps c = ({ ps with inputStr := ps.inputStr ++ [c] }, none) := by
  have hn : c ≠ '\n' ∧ c ≠ '\r' := by
    rcases h with h | rfl
    · constructor <;> rintro rfl <;> exact absurd h (by decide)
    · exact ⟨by decide, by decide⟩
  rcases h with h | h
  · simp [feed_char, hn.1, hn.2, h]
  · simp [feed_char, hn.1, hn.2, h]

theorem feed_chars_nil (ps : ParseState) : feed_chars ps [] = (ps, []) := rfl

theorem feed_chars_cons (ps : ParseState) (c : Char) (cs : List Char) :
    feed_chars ps (c :: cs) =
      ((feed_chars (feed_char ps c).1 cs).1,
       (feed_char ps c).2.toList ++ (feed_chars (feed_char ps c).1 cs).2) := rfl

theorem feed_chars_append (a : List Char) :
    ∀ (ps : ParseState) (b : List Char),
      feed_chars ps (a ++ b) =
        ((feed_chars (feed_chars ps a).1 b).1,
         (feed_chars ps a).2 ++ (feed_chars (feed_chars ps a).1 b).2) := by
  induction a with
  | nil => intro ps b; simp [feed_chars]
  | cons c cs ih =>
      intro ps b
      simp only [List.cons_append, feed_chars_cons, ih, List.append_assoc]

theorem feed_chars_accepts (s : List Char) :
    ∀ ps : ParseState, (∀ c ∈ s, isDigit c = true ∨ c = '.') →
      feed_chars ps s = ({ ps with inputStr := ps.inputStr ++ s }, []) := by
  induction s with
  | nil => intro ps _; simp [feed_chars]
  | cons c cs ih =>
      intro ps h
      have hc := h c (by simp)
      rw [feed_chars_cons, feed_char_accept ps c hc]
      rw [ih _ (fun d hd => h d (by simp [hd]))]
      simp

theorem feed_char_term_applied (ps : ParseState) (t : Char)
    (ht : t = '\n' ∨ t = '\r') (hne : ps.inputStr ≠ [])
    (h20 : 20 < toFloat ps.inputStr) (h2k : toFloat ps.inputStr < 20000) :
    feed_char ps t =
      ({ inputStr := [], freq := toFloat ps.inputStr },
       some (Outcome.Applied (toFloat ps.inputStr))) := by
  have hlen : ps.inputStr.length > 0 := List.length_pos.mpr hne
  rcases ht with rfl | rfl <;> simp [feed_char, hlen, h20, h2k]

theorem feed_char_term_rejected (ps : ParseState) (t : Char)
    (ht : t = '\n' ∨ t = '\r') (hne : ps.inputStr ≠ [])
    (hout : ¬ (20 < toFloat ps.inputStr ∧ toFloat ps.inputStr < 20000)) :
    feed_char ps t = ({ inputStr := [], freq := ps.freq }, some Outcome.Rejected) := by
  have hlen : ps.inputStr.length > 0 := List.length_pos.mpr hne
  rcases ht with rfl | rfl <;> simp [feed_char, hlen, hout]

/-- C1: feeding the digit/decimal-point characters of a value `f` with
`20 < f < 20000`, followed by a line terminator, from a state with an empty
pending buffer, sets the shared frequency to exactly the parsed value and
yields the single outcome `Applied (toFloat s)`. -/
theorem C1_valid_line_applied (fq : ℚ) (s : List Char) (t : Char)
    (hs : ∀ c ∈ s, isDigit c = true ∨ c = '.')
    (ht : t = '\n' ∨ t = '\r')
    (h20 : 20 < toFloat s) (h2k : toFloat s < 20000) :
    feed_chars { inputStr := [], freq := fq } (s ++ [t]) =
      ({ inputStr := [], freq := toFloat s }, [Outcome.Applied (toFloat s)]) := by
  have hne : s ≠ [] := by
    rintro rfl
    norm_num [toFloat, digitsVal] at h20
  rw [feed_chars_append, feed_chars_accepts s _ hs]
  simp only [List.nil_append]
  rw [feed_chars_cons, feed_char_term_applied ⟨s, fq⟩ t ht hne h20 h2k]
  simp [feed_chars]

/-- C1 witness: the concrete scenario of the spec, `'1','0','0','\n'`:
the hypotheses of `C1_valid_line_applied` hold for `s = "100"` and the parsed
value is exactly 100. -/
theorem C1_witness :
    ((∀ c ∈ ['1', '0', '0'], isDigit c = true ∨ c = '.') ∧
      ('\n' = '\n' ∨ '\n' = '\r') ∧
      20 < toFloat ['1', '0', '0'] ∧ toFloat ['1', '0', '0'] < 20000 ∧
      toFloat ['1', '0', '0'] = 100) ∧
    feed_chars { inputStr := [], freq := 440 } (['1', '0', '0'] ++ ['\n']) =
      ({ inputStr := [], freq := toFloat ['1', '0', '0'] },
       [Outcome.Applied (toFloat ['1', '0', '0'])]) :=
  ⟨⟨by decide, by decide, by decide, by decide, by decide⟩,
   C1_valid_line_applied 440 ['1', '0', '0'] '\n' (by decide) (by decide)
     (by decide) (by decide)⟩

/-- C2 counterexample: the line `'9','9','9','9'` parses to 9999, which lies
strictly inside the accepted interval (20, 20000), so the code applies it:
the outcome is `Applied 9999`, not `Rejected`, and the frequency changes from
its prior value 440 to 9999. -/
theorem C2_counterexample :
    feed_chars { inputStr := [], freq := 440 } ['9', '9', '9', '9', '\n'] =
      ({ inputStr := [], freq := 9999 }, [Outcome.Applied 9999]) ∧
    (feed_chars { inputStr := [], freq := 440 } ['9', '9', '9', '9', '\n']).2 ≠
      [Outcome.Rejected] ∧
    (feed_chars { inputStr := [], freq := 440 } ['9', '9', '9', '9', '\n']).1.freq ≠ 440 :=
  ⟨by decide, by decide, by decide⟩

theorem feed_line_rejected (fq : ℚ) (s : List Char) (t : Char)
    (hs : ∀ c ∈ s, isDigit c = true ∨ c = '.')
    (ht : t = '\n' ∨ t = '\r') (hne : s ≠ [])
    (hout : ¬ (20 < toFloat s ∧ toFloat s < 20000)) :
    feed_chars { inputStr := [], freq := fq } (s ++ [t]) =
      ({ inputStr := [], freq := fq }, [Outcome.Rejected]) := by
  rw [feed_chars_append, feed_chars_accepts s _ hs]
  simp only [List.nil_append]
  rw [feed_chars_cons, feed_char_term_rejected ⟨s, fq⟩ t ht hne hout]
  simp [feed_chars]

/-- C2 (amended): feeding `'9','9','9','9','9'` — whose value 99999 is at or
above the 20000 ceiling — followed by `'\n'` produces a `Rejected` outcome
and leaves the frequency at its prior value, for every prior frequency. -/
theorem C2_overlarge_rejected (fq : ℚ) :
    feed_chars { inputStr := [], freq := fq } ['9', '9', '9', '9', '9', '\n'] =
      ({ inputStr := [], freq := fq }, [Outcome.Rejected]) :=
  feed_line_rejected fq ['9', '9', '9', '9', '9'] '\n' (by decide) (Or.inl rfl)
    (by decide)
    (show ¬ (20 < toFloat ['9', '9', '9', '9', '9'] ∧
      toFloat ['9', '9', '9', '9', '9'] < 20000) by decide)

/-- C3: terminating a nonempty pending line whose parsed value is ≤ 20 or
≥ 20000 — including lines of only decimal points, whose parse falls back to
0 — yields a `Rejected` outcome, keeps the prior frequency, and clears the
pending buffer, for both line terminators; the resulting state is a live
parser state ready for subsequent input. -/
theorem C3_out_of_range_rejected (ps : ParseState)
    (hne : ps.inputStr ≠ [])
    (hout : toFloat ps.inputStr ≤ 20 ∨ 20000 ≤ toFloat ps.inputStr) :
    feed_char ps '\n' = ({ inputStr := [], freq := ps.freq }, some Outcome.Rejected) ∧
    feed_char ps '\r' = ({ inputStr := [], freq := ps.freq }, some Outcome.Rejected) := by
  have hout' : ¬ (20 < toFloat ps.inputStr ∧ toFloat ps.inputStr < 20000) := by
    rcases hout with h | h
    · exact fun hc => absurd hc.1 (not_lt.mpr h)
    · exact fun hc => absurd hc.2 (not_lt.mpr h)
  exact ⟨feed_char_term_rejected ps '\n' (Or.inl rfl) hne hout',
         feed_char_term_rejected ps '\r' (Or.inr rfl) hne hout'⟩

/-- C3 witness: the line `"20"` parses to the boundary value 20, which is out
of the open interval and rejected; instantiates `C3_out_of_range_rejected`. -/
theorem C3_witness :
    ((['2', '0'] : List Char) ≠ [] ∧
      (toFloat ['2', '0'] ≤ 20 ∨ 20000 ≤ toFloat ['2', '0'])) ∧
    (feed_char ⟨['2', '0'], 440⟩ '\n' =
        ({ inputStr := [], freq := 440 }, some Outcome.Rejected) ∧
      feed_char ⟨['2', '0'], 440⟩ '\r' =
        ({ inputStr := [], freq := 440 }, some Outcome.Rejected)) :=
  ⟨⟨by decide, by decide⟩,
   C3_out_of_range_rejected ⟨['2', '0'], 440⟩ (by decide) (by decide)⟩

/-- C8: a line terminator arriving while the pending buffer is empty is a
silent no-op: no outcome is produced, the frequency is unchanged and the
buffer stays empty, for every frequency and both terminators. -/
theorem C8_empty_terminator_noop (fq : ℚ) :
    feed_char { inputStr := [], freq := fq } '\n' =
      ({ inputStr := [], freq := fq }, none) ∧
    feed_char { inputStr := [], freq := fq } '\r' =
      ({ inputStr := [], freq := fq }, none) := by
  constructor <;> rfl

/-- C9: character classification of the accumulator: a character that is not
a digit, not the decimal point and not a terminator is discarded with no
state change and no outcome; a digit or the decimal point is appended to the
pending buffer with no other state change and no outcome. -/
theorem C9_char_classification (ps : ParseState) (c : Char) :
    (isDigit c = false → c ≠ '.' → c ≠ '\n' → c ≠ '\r' →
      feed_char ps c = (ps, none)) ∧
    (isDigit c = true ∨ c = '.' →
      feed_char ps c = ({ ps with inputStr := ps.inputStr ++ [c] }, none)) := by
  constructor
  · intro hd hp hn hr
    simp [feed_char, hd, hp, hn, hr]
  · intro h
    exact feed_char_accept ps c h

/-- C9 witness: instantiates `C9_char_classification` at the ignored
character `'x'` and at the accepted digit `'5'`, from the buffer `"4"`. -/
theorem C9_witness :
    (isDigit 'x' = false ∧ ('x' : Char) ≠ '.' ∧ ('x' : Char) ≠ '\n' ∧
      ('x' : Char) ≠ '\r' ∧
      feed_char ⟨['4'], 440⟩ 'x' = (⟨['4'], 440⟩, none)) ∧
    (isDigit '5' = true ∧
      feed_char ⟨['4'], 440⟩ '5' = (⟨['4', '5'], 440⟩, none)) :=
  ⟨⟨by decide, by decide, by decide, by decide,
      (C9_char_classification ⟨['4'], 440⟩ 'x').1 (by decide) (by decide)
        (by decide) (by decide)⟩,
   ⟨by decide, (C9_char_classification ⟨['4'], 440⟩ '5').2 (Or.inl (by decide))⟩⟩

theorem PI2_pos : (0 : ℚ) < PI2 := by decide

theorem phase_step_mem (inc p : ℚ) (h0 : 0 < inc) (h1 : inc < PI2)
    (hp0 : 0 ≤ p) (hp1 : p < PI2) :
    0 ≤ phase_step inc p ∧ phase_step inc p < PI2 := by
  unfold phase_step
  by_cases h : p + inc ≥ PI2
  · rw [if_pos h]
    constructor <;> linarith
  · rw [if_neg h]
    push_neg at h
    constructor <;> linarith

theorem gen_loop_phase_mem (inc : ℚ) (h0 : 0 < inc) (h1 : inc < PI2) :
    ∀ (n : ℕ) (p : ℚ), 0 ≤ p → p < PI2 →
      0 ≤ (gen_loop inc p n).2 ∧ (gen_loop inc p n).2 < PI2 := by
  intro n
  induction n with
  | zero => intro p hp0 hp1; exact ⟨hp0, hp1⟩
  | succ n ih =>
      intro p hp0 hp1
      have hs := phase_step_mem inc p h0 h1 hp0 hp1
      simpa [gen_loop] using ih (phase_step inc p) hs.1 hs.2

/-- C4: with a positive frequency strictly below the sample rate (the
situation guaranteed by the validated 20000 ceiling and the trusted initial
440) and a phase in [0, PI2), any call of `generate_sine`, for any frame
count, leaves the phase again in [0, PI2); and the per-sample wrap is the
single conditional subtraction of PI2, applied exactly when the advanced
phase reaches PI2. -/
theorem C4_phase_invariant (freq p : ℚ) (n : ℕ)
    (hf0 : 0 < freq) (hfs : freq < SAMPLE_RATE)
    (hp0 : 0 ≤ p) (hp1 : p < PI2) :
    (0 ≤ (generate_sine freq p n).2 ∧ (generate_sine freq p n).2 < PI2) ∧
    (∀ q : ℚ, phase_step (PI2 * freq / SAMPLE_RATE) q =
      if q + PI2 * freq / SAMPLE_RATE ≥ PI2
      then q + PI2 * freq / SAMPLE_RATE - PI2
      else q + PI2 * freq / SAMPLE_RATE) := by
  have hP : (0 : ℚ) < PI2 := PI2_pos
  have hSR : (0 : ℚ) < SAMPLE_RATE := by norm_num [SAMPLE_RATE]
  have hinc0 : 0 < PI2 * freq / SAMPLE_RATE := div_pos (mul_pos hP hf0) hSR
  have hincP : PI2 * freq / SAMPLE_RATE < PI2 := by
    rw [div_lt_iff₀ hSR]
    exact mul_lt_mul_of_pos_left hfs hP
  exact ⟨gen_loop_phase_mem _ hinc0 hincP n p hp0 hp1, fun q => rfl⟩

/-- C4 witness: instantiates `C4_phase_invariant` at frequency 440, phase 0,
three frames. -/
theorem C4_witness :
    ((0 : ℚ) < 440 ∧ (440 : ℚ) < SAMPLE_RATE ∧ (0 : ℚ) ≤ 0 ∧ (0 : ℚ) < PI2) ∧
    ((0 ≤ (generate_sine 440 0 3).2 ∧ (generate_sine 440 0 3).2 < PI2) ∧
      (∀ q : ℚ, phase_step (PI2 * 440 / SAMPLE_RATE) q =
        if q + PI2 * 440 / SAMPLE_RATE ≥ PI2
        then q + PI2 * 440 / SAMPLE_RATE - PI2
        else q + PI2 * 440 / SAMPLE_RATE)) :=
  ⟨⟨by decide, by decide, by decide, by decide⟩,
   C4_phase_invariant 440 0 3 (by decide) (by decide) (by decide) (by decide)⟩

theorem gen_loop_getElem (inc : ℚ) :
    ∀ (n i : ℕ) (p : ℚ), i < n →
      (gen_loop inc p n).1[i]? =
        some (sineSample (run_phase inc p i), sineSample (run_phase inc p i)) := by
  intro n
  induction n with
  | zero => intro i p h; exact absurd h (Nat.not_lt_zero i)
  | succ n ih =>
      intro i p h
      cases i with
      | zero => simp [gen_loop, run_phase]
      | succ i =>
          have hi : i < n := Nat.lt_of_succ_lt_succ h
          simp [gen_loop, run_phase, ih i (phase_step inc p) hi]

theorem truncToInt_bounds (x : ℝ) (B : ℤ) (hB : 0 ≤ B)
    (hub : x ≤ (B : ℝ)) (hlb : -(B : ℝ) ≤ x) :
    -B ≤ truncToInt x ∧ truncToInt x ≤ B := by
  unfold truncToInt
  by_cases h : 0 ≤ x
  · rw [if_pos h]
    constructor
    · have h0 : (0 : ℤ) ≤ ⌊x⌋ := Int.floor_nonneg.mpr h
      linarith
    · have h2 : (⌊x⌋ : ℝ) ≤ (B : ℝ) := le_trans (Int.floor_le x) hub
      exact_mod_cast h2
  · rw [if_neg h]
    push_neg at h
    constructor
    · have h2 : -(B : ℝ) ≤ (⌈x⌉ : ℝ) := le_trans hlb (Int.le_ceil x)
      exact_mod_cast h2
    · have h0 : ⌈x⌉ ≤ 0 := Int.ceil_le.mpr (by push_cast; linarith)
      linarith

theorem toInt16_eq_of_bounds (v : ℤ) (h1 : -32768 ≤ v) (h2 : v < 32768) :
    toInt16 v = v := by
  unfold toInt16
  have h3 : (0 : ℤ) ≤ v + 32768 := by linarith
  have h4 : v + 32768 < 65536 := by linarith
  rw [Int.emod_eq_of_lt h3 h4]
  ring

theorem sineSample_abs_le (p : ℚ) : |sineSample p| ≤ 15000 := by
  have hamp : (AMPLITUDE : ℝ) = ((15000 : ℤ) : ℝ) := by norm_num [AMPLITUDE]
  have hs1 : Real.sin (p : ℝ) ≤ 1 := Real.sin_le_one _
  have hs2 : -1 ≤ Real.sin (p : ℝ) := Real.neg_one_le_sin _
  have h15 : ((15000 : ℤ) : ℝ) = (15000 : ℝ) := by norm_num
  have hub : Real.sin (p : ℝ) * (AMPLITUDE : ℝ) ≤ ((15000 : ℤ) : ℝ) := by
    rw [hamp, h15]
    nlinarith
  have hlb : -((15000 : ℤ) : ℝ) ≤ Real.sin (p : ℝ) * (AMPLITUDE : ℝ) := by
    rw [hamp, h15]
    nlinarith
  have hb := truncToInt_bounds (Real.sin (p : ℝ) * (AMPLITUDE : ℝ)) 15000
    (by decide) hub hlb
  unfold sineSample
  rw [toInt16_eq_of_bounds _ (by linarith [hb.1]) (by linarith [hb.2])]
  rw [abs_le]
  exact ⟨hb.1, hb.2⟩

/-- C6: for every call of `generate_sine` with frame count `n` and every
frame index `i < n`, the left slot (buffer index `2*i`) and the right slot
(buffer index `2*i+1`) of frame `i` hold the same value, that value is the
int16 conversion of `sin(phase_i) * AMPLITUDE` where `phase_i` is the phase
after `i` per-sample steps, and its magnitude never exceeds the amplitude
constant 15000. -/
theorem C6_stereo_sample_bound (freq p : ℚ) (n i : ℕ) (h : i < n) :
    (generate_sine freq p n).1[i]? =
      some (sineSample (run_phase (PI2 * freq / SAMPLE_RATE) p i),
            sineSample (run_phase (PI2 * freq / SAMPLE_RATE) p i)) ∧
    |sineSample (run_phase (PI2 * freq / SAMPLE_RATE) p i)| ≤ AMPLITUDE := by
  refine ⟨gen_loop_getElem _ n i p h, ?_⟩
  have hb := sineSample_abs_le (run_phase (PI2 * freq / SAMPLE_RATE) p i)
  simpa [AMPLITUDE] using hb

/-- C6 witness: instantiates `C6_stereo_sample_bound` for one frame at
frequency 440 and phase 0. -/
theorem C6_witness :
    (0 : ℕ) < 1 ∧
    ((generate_sine 440 0 1).1[0]? =
        some (sineSample (run_phase (PI2 * 440 / SAMPLE_RATE) 0 0),
              sineSample (run_phase (PI2 * 440 / SAMPLE_RATE) 0 0)) ∧
      |sineSample (run_phase (PI2 * 440 / SAMPLE_RATE) 0 0)| ≤ AMPLITUDE) :=
  ⟨by decide, C6_stereo_sample_bound 440 0 1 0 (by decide)⟩

theorem gen_loop_add (inc : ℚ) :
    ∀ (n m : ℕ) (p : ℚ),
      gen_loop inc p (n + m) =
        ((gen_loop inc p n).1 ++ (gen_loop inc (gen_loop inc p n).2 m).1,
         (gen_loop inc (gen_loop inc p n).2 m).2) := by
  intro n
  induction n with
  | zero =>
      intro m p
      simp [gen_loop, Nat.zero_add]
  | succ n ih =>
      intro m p
      have hadd : n + 1 + m = (n + m) + 1 := by omega
      rw [hadd]
      simp [gen_loop, ih m (phase_step inc p)]

/-- C7: generating `n` frames and then `m` frames with no intervening
frequency change is the same as generating `n + m` frames at once: the
sample sequences concatenate and the final phases coincide, so the waveform
is phase-continuous across the buffer boundary. -/
theorem C7_phase_continuity (freq p : ℚ) (n m : ℕ) :
    generate_sine freq p (n + m) =
      ((generate_sine freq p n).1 ++
        (generate_sine freq (generate_sine freq p n).2 m).1,
       (generate_sine freq (generate_sine freq p n).2 m).2) :=
  gen_loop_add (PI2 * freq / SAMPLE_RATE) n m p

/-- C5 counterexample: with the fault flag already set but the spin-loop
halt not yet reached, the next `loop()` invocation still issues a buffer
refill and still processes the pending serial input — even producing an
`Applied` outcome and changing the frequency — because the fault check sits
after the refill and the serial drain in the loop body.  This refutes the
claim that once the flag is set no subsequent iteration performs a refill,
processes input, or produces an outcome. -/
theorem C5_counterexample :
    faultedRunning.err_flag = true ∧
    (loop_iter faultedRunning).refills = faultedRunning.refills + 1 ∧
    (loop_iter faultedRunning).outcomes = [Outcome.Applied 400] ∧
    (loop_iter faultedRunning).ps.freq = 400 ∧
    faultedRunning.ps.freq = 440 :=
  ⟨by decide, by decide, by decide, by decide, by decide⟩

/-- C5 (amended): the fault flag, once set, is never cleared — neither by
the callback nor by the loop — and the loop invocation that observes it
halts the system permanently; a halted state is absorbing: every further
iteration is the identity, so no refill, no input processing and no outcome
ever occurs after the halt.  (The single iteration that first observes the
flag still performs its own refill and serial drain before halting, as the
counterexample shows.) -/
theorem C5_fault_absorbing (s : SysState) (h : s.err_flag = true) :
    (loop_iter s).err_flag = true ∧
    (∀ code : ℕ, (error_callback code s).err_flag = true) ∧
    (loop_iter s).halted = true ∧
    (s.halted = true → ∀ n : ℕ, loop_iter^[n] s = s) := by
  refine ⟨?_, ?_, ?_, ?_⟩
  · by_cases hh : s.halted = true <;> simp [loop_iter, hh, h]
  · intro code
    by_cases hc : AS_ATTENTION_CODE_WARNING < code <;>
      simp [error_callback, hc, h]
  · by_cases hh : s.halted = true <;> simp [loop_iter, hh, h]
  · intro hh n
    have hfix : loop_iter s = s := by simp [loop_iter, hh]
    exact Function.iterate_fixed hfix n

/-- C5 witness: instantiates `C5_fault_absorbing` at the concrete faulted
and halted state. -/
theorem C5_witness :
    faultedHalted.err_flag = true ∧
    ((loop_iter faultedHalted).err_flag = true ∧
      (∀ code : ℕ, (error_callback code faultedHalted).err_flag = true) ∧
      (loop_iter faultedHalted).halted = true ∧
      (faultedHalted.halted = true →
        ∀ n : ℕ, loop_iter^[n] faultedHalted = faultedHalted)) :=
  ⟨rfl, C5_fault_absorbing faultedHalted rfl⟩

/-- C10: the attention callback's postcondition: the fault flag after the
call equals the old flag OR-ed with `AS_ATTENTION_CODE_WARNING < code`, no
other field changes, and in particular an attention event whose code equals
the warning level leaves the whole state unchanged. -/
theorem C10_error_callback_postcondition (s : SysState) (code : ℕ) :
    error_callback code s =
      { s with err_flag := s.err_flag || decide (AS_ATTENTION_CODE_WARNING < code) } ∧
    error_callback AS_ATTENTION_CODE_WARNING s = s := by
  constructor
  · by_cases hc : AS_ATTENTION_CODE_WARNING < code
    · have hd : decide (AS_ATTENTION_CODE_WARNING < code) = true := decide_eq_true hc
      simp [error_callback, hc, hd]
    · have hd : decide (AS_ATTENTION_CODE_WARNING < code) = false :=
        decide_eq_false hc
      simp [error_callback, hc, hd]
  · simp [error_callback]
